import Mathlib

/-!
# Verification of the `@ramboqui/nestjs-autodi` discovery-and-binding engine

Shallow embedding of the library's core: the capability tagger
(`AutoInjectable` / `AutoController` decorators and the scanner queries),
the identity registry (`convertInterface`), the unit loader
(`loadClassesFromPatterns` with its textual pre-filter and content cache),
and the binding resolver inside the `AutoModule` decorator.

Modelling conventions:
* A JavaScript class object is a `Cls`: a numeric object identity `id`
  together with its out-of-band reflect-metadata record `ClsMeta`.
* A DI token (the value stored under `auto:token`) is either a class object
  or an interface-metadata object; interface-metadata objects are memoized
  per `Symbol.for(name)`, so reference equality of two interface tokens
  coincides with equality of their names. `Token` captures both cases.
* `undefined` metadata is `Option.none`.
* The filesystem, the glob/readdir pattern expansion and `require` are the
  external collaborators; they are parameters (`FileSys`, `Env`), and the
  loader's observable actions (reads performed, `require` invocations) are
  recorded in an explicit `LoaderState`.
-/

/-- A DI token: either a class object (identified by its object id) or an
interface-metadata object (memoized per `Symbol.for(name)`, hence identified
by its name). -/
inductive Token where
  | cls (id : Nat)
  | iface (name : String)
deriving DecidableEq, Repr

/-- The reflect-metadata record attached to a class by the decorators.
Each field is the entry stored under the corresponding SYMBOL key of
`di.constants.ts` — `Symbol.for('auto:injectable')`,
`Symbol.for('auto:controller')`, `Symbol.for('auto:token')`
(`AUTO_TOKEN_KEY`), `Symbol.for('auto:priority')`; these symbol keys are
the only metadata keys any code of the repository ever writes. A fresh
(undecorated) class has all fields absent/false. -/
structure ClsMeta where
  autoInjectable : Bool := false
  autoController : Bool := false
  token : Option Token := none
  priority : Option Int := none
deriving DecidableEq, Repr

/-- A class object: object identity plus its metadata record. -/
structure Cls where
  id : Nat
  meta : ClsMeta := {}
deriving DecidableEq, Repr

instance : Inhabited Cls := ⟨⟨0, {}⟩⟩

/-- Options of the `@AutoInjectable` decorator (`AutoInjectableOptions`). -/
structure AutoInjectableOptions where
  priority : Option Int := none
  interfaceMetadata : Option Token := none
deriving DecidableEq, Repr

/-- `AutoInjectable(options)(target)` from
`src/decorators/auto-injectable.decorator.ts`: sets `auto:injectable` to
true; sets `auto:token` to `options.interfaceMetadata` when supplied and to
the target class itself otherwise; sets `auto:priority` only when
`options.priority` is defined. -/
def AutoInjectable (options : AutoInjectableOptions) (target : Cls) : Cls :=
  { target with
    meta :=
      { target.meta with
        autoInjectable := true
        token := some (match options.interfaceMetadata with
          | some t => t
          | none => Token.cls target.id)
        priority := match options.priority with
          | some p => some p
          | none => target.meta.priority } }

/-- `AutoController(prefixArg)(target)` from the auto-controller decorator:
sets `auto:controller` to true (the route path is handed to the host
framework and does not touch the metadata we model). -/
def AutoController (target : Cls) : Cls :=
  { target with meta := { target.meta with autoController := true } }

/-- `isAutoInjectable` from the scanner: `auto:injectable === true`. -/
def isAutoInjectable (c : Cls) : Bool :=
  c.meta.autoInjectable

/-- `getAutoInjectableToken` from the scanner: reads `auto:token`
(`none` models `undefined`). -/
def getAutoInjectableToken (c : Cls) : Option Token :=
  c.meta.token

/-- `getAutoInjectablePriority` from the scanner:
`Reflect.getMetadata(AUTO_PRIORITY_KEY, cls) ?? 0`. -/
def getAutoInjectablePriority (c : Cls) : Int :=
  c.meta.priority.getD 0

/-- `isAutoController` from the scanner: `auto:controller === true`. -/
def isAutoController (c : Cls) : Bool :=
  c.meta.autoController

/-- The reflect-metadata entry a class holds under the plain STRING key
`'auto:token'`. Reflect-metadata distinguishes keys by identity, so the
string `'auto:token'` and `AUTO_TOKEN_KEY = Symbol.for('auto:token')` are
distinct keys; `AutoInjectable` writes only under the symbol key
(`ClsMeta.token`), and no code of the repository ever defines metadata
under the string key — this entry is therefore `undefined` for every class
the program constructs. -/
def stringKeyAutoToken (_c : Cls) : Option Token :=
  none

/-- `doesImplement(instance, iface)` from
`src/interfaces/interface-metadata.interface.ts`: reads the constructor of
the instance (`none` when the instance is nullish), reads the constructor's
metadata under the STRING key `'auto:token'` —
`Reflect.getMetadata('auto:token', cls)`, not the symbol `AUTO_TOKEN_KEY`
the decorator writes — and compares it with `iface` by reference
(`undefined === iface` is false). -/
def doesImplement (ctor : Option Cls) (iface : Token) : Bool :=
  match ctor with
  | none => false
  | some c =>
    match stringKeyAutoToken c with
    | none => false
    | some t => t = iface

/-! ## Binding resolver (the provider loop of `AutoModule`)

From `src/decorators/auto-module.decorator.ts`: the scanned provider classes
are partitioned into `implMap : Map token (list {cls, priority})` preserving
both key insertion order and per-key push order; each group then yields one
provider entry `{provide: token, useClass: winner}`, or throws a conflict
error naming the token. -/

/-- One entry pushed into `allProviders`: `{ provide, useClass }`. -/
structure ProviderBinding where
  provide : Option Token
  useClass : Cls
deriving DecidableEq, Repr

/-- An association list modelling a JavaScript `Map` (insertion-ordered). -/
abbrev ImplMap := List (Option Token × List (Cls × Int))

/-- `implMap.get(token)!.push({cls, priority})`, creating the key first when
absent — appends to the existing group or appends a new singleton group. -/
def pushImpl (m : ImplMap) (k : Option Token) (v : Cls × Int) : ImplMap :=
  match m with
  | [] => [(k, [v])]
  | (k', g) :: rest =>
    if k' = k then (k', g ++ [v]) :: rest
    else (k', g) :: pushImpl rest k v

/-- One iteration of the grouping loop of `AutoModule`: a class passing
`isAutoInjectable` is pushed into the map under its `auto:token`, any other
class is ignored. -/
def addProviderClass (m : ImplMap) (c : Cls) : ImplMap :=
  if isAutoInjectable c then
    pushImpl m (getAutoInjectableToken c) (c, getAutoInjectablePriority c)
  else m

/-- The grouping loop of `AutoModule` over all scanned classes. -/
def buildImplMap (providerClasses : List Cls) : ImplMap :=
  providerClasses.foldl addProviderClass []

/-- The descending-priority comparator `(a, b) => b.priority - a.priority`
(as a boolean order: `a` may precede `b` iff `b.priority ≤ a.priority`). -/
def priorityDesc (a b : Cls × Int) : Bool :=
  decide (b.2 ≤ a.2)

/-- Resolution of one `implMap` group: a singleton group wins trivially;
otherwise the group is sorted descending by priority, a tie between the two
highest priorities throws `Conflict` carrying the token, and else the head
of the sorted list wins. (An empty group never arises from `buildImplMap`;
the source would crash on one, modelled as the error case.) -/
def resolveGroup (k : Option Token) (impls : List (Cls × Int)) :
    Except (Option Token) ProviderBinding :=
  match impls with
  | [x] => .ok ⟨k, x.1⟩
  | _ =>
    match impls.mergeSort priorityDesc with
    | a :: b :: _ => if a.2 = b.2 then .error k else .ok ⟨k, a.1⟩
    | [x] => .ok ⟨k, x.1⟩
    | [] => .error k

/-- The per-group loop of `AutoModule`: groups are resolved in map insertion
order, the first conflict aborting the whole registration. -/
def resolveGroups : ImplMap → Except (Option Token) (List ProviderBinding)
  | [] => .ok []
  | (k, g) :: rest =>
    match resolveGroup k g with
    | .error e => .error e
    | .ok b =>
      match resolveGroups rest with
      | .error e => .error e
      | .ok bs => .ok (b :: bs)

/-- The provider entries produced by `AutoModule`'s scanning pass for a list
of loaded classes (explicit caller-supplied providers are merged separately
and untouched by this computation). -/
def resolveProviders (providerClasses : List Cls) :
    Except (Option Token) (List ProviderBinding) :=
  resolveGroups (buildImplMap providerClasses)

/-! ## Identity registry (`convertInterface`)

From `src/interfaces/interface-metadata.interface.ts`: a process-wide map
keyed by `Symbol.for(name)` memoizes one freshly constructed class object
per interface name. Object identity of the created classes is modelled by
an allocation index into the registry: the registry is the list of names in
allocation order, and the object created for a name is the pair of its
allocation index and the name (two `IdentityObj` values are equal exactly
when they denote the same JavaScript object). -/

/-- An interface-metadata object: allocation identity plus frozen name. -/
structure IdentityObj where
  allocId : Nat
  name : String
deriving DecidableEq, Repr

/-- The global `interfaceMap`, as the list of names in allocation order. -/
abbrev InterfaceMap := List String

/-- Index of the entry for `n` in the registry (`interfaceMap.get(id)`). -/
def lookupIdx (n : String) : InterfaceMap → Option Nat
  | [] => none
  | m :: rest => if m = n then some 0 else (lookupIdx n rest).map (· + 1)

/-- `convertInterface(name)`: return the memoized object when the map has
one for `Symbol.for(name)`; otherwise allocate a fresh object, store it and
return it. -/
def convertInterface (n : String) (reg : InterfaceMap) : IdentityObj × InterfaceMap :=
  match lookupIdx n reg with
  | some i => (⟨i, n⟩, reg)
  | none => (⟨reg.length, n⟩, reg ++ [n])

/-- An arbitrary interleaved sequence of `convertInterface` calls, keeping
only the registry state they thread. -/
def runConvertCalls (ns : List String) (reg : InterfaceMap) : InterfaceMap :=
  ns.foldl (fun r m => (convertInterface m r).2) reg

/-! ## Unit loader (`class-loader.util.ts`, revision with content cache)

The filesystem and `require` are external collaborators, provided as an
oracle `FileSys`; `content p = none` models an unreadable location and
`modExports p = none` a `require` call that throws while evaluating the
module (`modExports p = some cs` gives the exported values that are
functions, which are the ones the loader collects). Pattern expansion
(direct `readdirSync` strategy for simple patterns, `glob.sync` for
recursive ones, and the resolution against `baseDir`) is likewise an
external collaborator, modelled by `Env.expand`: the list of files a
pattern reaches, in enumeration order. The loader's own observable state —
the content cache, the number of raw reads and the locations handed to
`require` — is threaded explicitly as `LoaderState`. -/

/-- The filesystem / module-system oracle. -/
structure FileSys where
  content : String → Option String
  modExports : String → Option (List Cls)

/-- `s.endsWith(suf)` as a character-list suffix test. -/
def strEndsWith (s suf : String) : Bool :=
  suf.data.isSuffixOf s.data

/-- The emptiness test `!content` performs on a (non-null) string. -/
def strIsEmpty (s : String) : Bool :=
  s.data.isEmpty

/-- `isTsOrJs` from the loader. -/
def isTsOrJs (filePath : String) : Bool :=
  strEndsWith filePath ".ts" || strEndsWith filePath ".js"

/-- Substring test on character lists (semantics of
`String.prototype.includes`). -/
def charsContain (pat : List Char) : List Char → Bool
  | [] => pat.isEmpty
  | c :: rest => pat.isPrefixOf (c :: rest) || charsContain pat rest

/-- `s.includes(pat)`. -/
def includes (s pat : String) : Bool :=
  charsContain pat.data s.data

/-- The loader's process-wide observable state: `fileContentCache` (a cached
`none` records a failed read, like the stored `null`), the number of
`readFileSync` attempts, and the locations passed to `require` in order. -/
structure LoaderState where
  cache : List (String × Option String)
  reads : Nat
  required : List String
deriving DecidableEq, Repr

/-- The state at process start: empty cache, nothing read or required. -/
def initLoaderState : LoaderState := ⟨[], 0, []⟩

/-- `fileContentCache.has/get`, as one lookup. -/
def cacheLookup (p : String) : List (String × Option String) → Option (Option String)
  | [] => none
  | (q, v) :: rest => if q = p then some v else cacheLookup p rest

/-- `getFileContent`: answer from the cache when present; otherwise attempt
`readFileSync` (one read), cache the content — or `null` on failure — and
return it. -/
def getFileContent (fs : FileSys) (filePath : String) (st : LoaderState) :
    Option String × LoaderState :=
  match cacheLookup filePath st.cache with
  | some v => (v, st)
  | none =>
    match fs.content filePath with
    | some c =>
      (some c, { st with cache := st.cache ++ [(filePath, some c)], reads := st.reads + 1 })
    | none =>
      (none, { st with cache := st.cache ++ [(filePath, none)], reads := st.reads + 1 })

/-- `loadClassesFromFile`: invoke `require` (recorded in `required`) and
collect the exported functions; an exception thrown by the module
propagates. -/
def loadClassesFromFile (fs : FileSys) (filePath : String) (st : LoaderState) :
    Except (String × LoaderState) (List Cls × LoaderState) :=
  let st' := { st with required := st.required ++ [filePath] }
  match fs.modExports filePath with
  | some cs => .ok (cs, st')
  | none => .error (filePath, st')

/-- `loadClassesFromFileIfAnnotated` (cached revision): skip non-`.ts`/`.js`
paths; fetch the content through the cache; skip when the content is absent
or empty (`if (!content) return`); `require` only when the text mentions
`@AutoInjectable(` or `@AutoController(`. -/
def loadClassesFromFileIfAnnotated (fs : FileSys) (filePath : String) (st : LoaderState) :
    Except (String × LoaderState) (List Cls × LoaderState) :=
  if isTsOrJs filePath then
    match getFileContent fs filePath st with
    | (none, st₁) => .ok ([], st₁)
    | (some content, st₁) =>
      if strIsEmpty content then .ok ([], st₁)
      else if includes content "@AutoInjectable(" || includes content "@AutoController(" then
        loadClassesFromFile fs filePath st₁
      else .ok ([], st₁)
  else .ok ([], st)

/-- Processing of the files one pattern reaches, in enumeration order,
appending the classes of each (the shared body of both pattern
strategies). -/
def scanFiles (fs : FileSys) : List String → LoaderState →
    Except (String × LoaderState) (List Cls × LoaderState)
  | [], st => .ok ([], st)
  | p :: rest, st =>
    match loadClassesFromFileIfAnnotated fs p st with
    | .error e => .error e
    | .ok (cs, st₁) =>
      match scanFiles fs rest st₁ with
      | .error e => .error e
      | .ok (cs', st₂) => .ok (cs ++ cs', st₂)

/-- The loader plus its external pattern-expansion collaborator. -/
structure Env where
  fs : FileSys
  expand : String → List String

/-- `loadClassesFromPatterns`: patterns in caller order, each expanded by
the external strategy and its files scanned, all classes appended. -/
def loadClassesFromPatterns (env : Env) : List String → LoaderState →
    Except (String × LoaderState) (List Cls × LoaderState)
  | [], st => .ok ([], st)
  | pat :: rest, st =>
    match scanFiles env.fs (env.expand pat) st with
    | .error e => .error e
    | .ok (cs, st₁) =>
      match loadClassesFromPatterns env rest st₁ with
      | .error e => .error e
      | .ok (cs', st₂) => .ok (cs ++ cs', st₂)

/-- `implMap.get(token)`: the group stored under a key, when present. -/
def groupOf (k : Option Token) : ImplMap → Option (List (Cls × Int))
  | [] => none
  | (k', g) :: rest => if k' = k then some g else groupOf k rest

/-- The provider-candidate entries a class list contributes to the group of
key `k`: the scanned classes passing `isAutoInjectable` whose token is `k`,
in scan order, paired with their priorities. -/
def candidatesFor (k : Option Token) (classes : List Cls) : List (Cls × Int) :=
  (classes.filter
      (fun d => isAutoInjectable d && decide (getAutoInjectableToken d = k))).map
    (fun d => (d, getAutoInjectablePriority d))

/-- The `require` invocations recorded in a loader outcome (an exception
thrown by a required module still counts its invocation). -/
def resultRequired (r : Except (String × LoaderState) (List Cls × LoaderState)) :
    List String :=
  match r with
  | .ok (_, st) => st.required
  | .error (_, st) => st.required

/-- Whether a loader outcome is a propagating exception. -/
def scanRaises (r : Except (String × LoaderState) (List Cls × LoaderState)) : Bool :=
  match r with
  | .ok _ => false
  | .error _ => true

/-! ## Helper lemmas: identity registry -/

/-- Both branches of `convertInterface` return an object carrying the
requested name. -/
lemma convertInterface_name (n : String) (reg : InterfaceMap) :
    (convertInterface n reg).1.name = n := by
  unfold convertInterface
  cases lookupIdx n reg <;> rfl

/-- A hit in the registry is unchanged by appended entries. -/
lemma lookupIdx_append_of_found {n : String} {r : InterfaceMap} {j : Nat}
    (h : lookupIdx n r = some j) (t : InterfaceMap) :
    lookupIdx n (r ++ t) = some j := by
  induction r generalizing j with
  | nil => simp [lookupIdx] at h
  | cons a r ih =>
    by_cases ha : a = n
    · simpa [lookupIdx, ha] using h
    · simp only [lookupIdx, ha, if_false, Option.map_eq_some'] at h
      obtain ⟨j', hj', rfl⟩ := h
      simp [lookupIdx, ha, ih hj']

/-- A fresh entry appended to the registry is found at the old length. -/
lemma lookupIdx_append_self {n : String} {r : InterfaceMap}
    (h : lookupIdx n r = none) : lookupIdx n (r ++ [n]) = some r.length := by
  induction r with
  | nil => simp [lookupIdx]
  | cons a r ih =>
    by_cases ha : a = n
    · simp [lookupIdx, ha] at h
    · simp only [lookupIdx, ha, if_false, Option.map_eq_none'] at h
      simp [lookupIdx, ha, ih h]

/-- After `convertInterface n`, the registry maps `n` to the returned
object's allocation index. -/
lemma lookupIdx_convertInterface (n : String) (reg : InterfaceMap) :
    lookupIdx n (convertInterface n reg).2 = some (convertInterface n reg).1.allocId := by
  unfold convertInterface
  cases h : lookupIdx n reg with
  | some i => simp [h]
  | none => simpa [h] using lookupIdx_append_self h

/-- One further `convertInterface` call (with any name) never moves an
existing entry. -/
lemma lookupIdx_stable_convertInterface {n : String} {r : InterfaceMap} {j : Nat}
    (h : lookupIdx n r = some j) (m : String) :
    lookupIdx n (convertInterface m r).2 = some j := by
  unfold convertInterface
  cases hm : lookupIdx m r with
  | some i => simpa using h
  | none => simpa using lookupIdx_append_of_found h [m]

/-- A whole sequence of further calls never moves an existing entry. -/
lemma lookupIdx_stable_runConvertCalls {n : String} {j : Nat} (ns : List String)
    {r : InterfaceMap} (h : lookupIdx n r = some j) :
    lookupIdx n (runConvertCalls ns r) = some j := by
  induction ns generalizing r with
  | nil => simpa [runConvertCalls]
  | cons m ns ih =>
    simp only [runConvertCalls, List.foldl_cons]
    exact ih (lookupIdx_stable_convertInterface h m)

/-- **C3**: the identity-creating operation is memoized process-wide: after
the first `convertInterface n`, any later call — under any interleaving of
other identity creations — returns the identical stored object exactly for
the equal name (equal names give the very same object, and two identity
objects are equal iff their names are equal), and such a repeat call leaves
the registry unchanged. -/
theorem convertInterface_memoized (n m : String) (reg : InterfaceMap) (ns : List String) :
    ((convertInterface m (runConvertCalls ns (convertInterface n reg).2)).1
        = (convertInterface n reg).1 ↔ m = n)
    ∧ (m = n →
        (convertInterface m (runConvertCalls ns (convertInterface n reg).2)).2
          = runConvertCalls ns (convertInterface n reg).2) := by
  rcases hcn : convertInterface n reg with ⟨i, r₁⟩
  have hname1 : i.name = n := by
    have := convertInterface_name n reg
    rw [hcn] at this; exact this
  have hstab : lookupIdx n (runConvertCalls ns r₁) = some i.allocId := by
    have := lookupIdx_convertInterface n reg
    rw [hcn] at this
    exact lookupIdx_stable_runConvertCalls ns this
  have hsame : m = n →
      convertInterface m (runConvertCalls ns r₁) = (i, runConvertCalls ns r₁) := by
    intro h; subst h
    unfold convertInterface
    rw [hstab]
    cases i with
    | mk a nm => simp at hname1; rw [hname1]
  constructor
  · constructor
    · intro h
      have h2 : (convertInterface m (runConvertCalls ns r₁)).1.name = m :=
        convertInterface_name m (runConvertCalls ns r₁)
      rw [h] at h2
      rw [hname1] at h2
      exact h2.symm
    · intro h
      rw [hsame h]
  · intro h
    rw [hsame h]

/-- **C2** (code bug): a class tagged `@AutoInjectable({interfaceMetadata:
i})` does carry `i` as its symbol-keyed associated identity, yet the
capability check answers `false` even for an instance of that very class:
`doesImplement` reads the metadata entry under the string key
`'auto:token'`, which the decorator (writing under
`Symbol.for('auto:token')`) never populates, so the read yields
`undefined` and the reference comparison fails — contradicting the claim
and the function's own documentation. -/
theorem doesImplement_always_false (i : Token) (options : AutoInjectableOptions)
    (target : Cls) (hopt : options.interfaceMetadata = some i) :
    getAutoInjectableToken (AutoInjectable options target) = some i
    ∧ doesImplement (some (AutoInjectable options target)) i = false := by
  constructor
  · simp [AutoInjectable, getAutoInjectableToken, hopt]
  · simp [doesImplement, stringKeyAutoToken]

/-- Witness for C2's failing input: a class tagged with a concrete identity
whose instances fail the capability check against that same identity. -/
theorem doesImplement_always_false_witness :
    (AutoInjectableOptions.mk none (some (Token.iface "IUserRepositoryPort"))).interfaceMetadata
        = some (Token.iface "IUserRepositoryPort")
    ∧ (getAutoInjectableToken (AutoInjectable
          ⟨none, some (Token.iface "IUserRepositoryPort")⟩ ⟨1, {}⟩)
          = some (Token.iface "IUserRepositoryPort")
        ∧ doesImplement (some (AutoInjectable
            ⟨none, some (Token.iface "IUserRepositoryPort")⟩ ⟨1, {}⟩))
            (Token.iface "IUserRepositoryPort") = false) :=
  ⟨by decide, doesImplement_always_false (Token.iface "IUserRepositoryPort")
    ⟨none, some (Token.iface "IUserRepositoryPort")⟩ ⟨1, {}⟩ (by decide)⟩

/-! ## Helper lemmas: binding resolver -/

/-- The descending comparator is transitive. -/
lemma priorityDesc_trans (a b c : Cls × Int) :
    priorityDesc a b → priorityDesc b c → priorityDesc a c := by
  simp only [priorityDesc, decide_eq_true_eq]
  omega

/-- The descending comparator is total. -/
lemma priorityDesc_total (a b : Cls × Int) : priorityDesc a b || priorityDesc b a := by
  simp only [priorityDesc, Bool.or_eq_true, decide_eq_true_eq]
  omega

/-- The sort performed by the resolver yields a descending priority list. -/
lemma mergeSort_sorted_desc (impls : List (Cls × Int)) :
    (impls.mergeSort priorityDesc).Pairwise (fun a b => b.2 ≤ a.2) := by
  have h : (impls.mergeSort priorityDesc).Pairwise (fun a b => priorityDesc a b = true) :=
    List.sorted_mergeSort priorityDesc_trans priorityDesc_total impls
  exact h.imp (fun hab => by simpa [priorityDesc] using hab)

/-- In a descending list, the head bounds every member. -/
lemma pairwise_desc_head_ub {a : Cls × Int} {tail : List (Cls × Int)}
    (h : (a :: tail).Pairwise (fun x y => y.2 ≤ x.2)) :
    ∀ y ∈ a :: tail, y.2 ≤ a.2 := by
  intro y hy
  rcases List.mem_cons.mp hy with rfl | hy'
  · exact le_refl _
  · exact (List.pairwise_cons.mp h).1 y hy'

/-- On a two-or-more element group, `resolveGroup` is decided by the first
two entries of the descending sort. -/
lemma resolveGroup_eq_of_two (k : Option Token) (x y : Cls × Int) (xs : List (Cls × Int)) :
    ∃ a b tail, (x :: y :: xs).mergeSort priorityDesc = a :: b :: tail
      ∧ resolveGroup k (x :: y :: xs)
          = (if a.2 = b.2 then .error k else .ok ⟨k, a.1⟩) := by
  have hlen : ((x :: y :: xs).mergeSort priorityDesc).length = xs.length + 2 := by
    simp
  match hs : (x :: y :: xs).mergeSort priorityDesc with
  | [] => rw [hs] at hlen; simp at hlen
  | [a] => rw [hs] at hlen; simp at hlen
  | a :: b :: tail =>
    refine ⟨a, b, tail, rfl, ?_⟩
    simp only [resolveGroup, hs]

/-- A singleton group registers its only member. -/
lemma resolveGroup_singleton (k : Option Token) (x : Cls × Int) :
    resolveGroup k [x] = .ok ⟨k, x.1⟩ := rfl

/-- When at least two group members attain the greatest priority, the
resolver throws the conflict carrying the group's token. -/
lemma resolveGroup_conflict {k : Option Token} {impls : List (Cls × Int)} {M : Int}
    (hub : ∀ y ∈ impls, y.2 ≤ M)
    (hcount : 2 ≤ impls.countP (fun y => decide (y.2 = M))) :
    resolveGroup k impls = .error k := by
  match impls with
  | [] => simp [List.countP_nil] at hcount
  | [x] =>
    rw [List.countP_cons, List.countP_nil] at hcount
    split at hcount <;> omega
  | x :: y :: xs =>
    obtain ⟨a, b, tail, hs, hres⟩ := resolveGroup_eq_of_two k x y xs
    have hperm : List.Perm (a :: b :: tail) (x :: y :: xs) := by
      rw [← hs]; exact List.mergeSort_perm _ _
    have hsorted : (a :: b :: tail).Pairwise (fun p q => q.2 ≤ p.2) := by
      rw [← hs]; exact mergeSort_sorted_desc _
    have hub' : ∀ z ∈ a :: b :: tail, z.2 ≤ M := fun z hz => hub z (hperm.subset hz)
    have hcount' : 2 ≤ (a :: b :: tail).countP (fun z => decide (z.2 = M)) := by
      rw [hperm.countP_eq]; exact hcount
    have hattain : ∃ z, z ∈ (a :: b :: tail) ∧ z.2 = M := by
      have hpos : 0 < (a :: b :: tail).countP (fun z => decide (z.2 = M)) := by omega
      simpa using List.countP_pos_iff.mp hpos
    have ha : a.2 = M := by
      obtain ⟨z, hz, hzM⟩ := hattain
      have h1 : z.2 ≤ a.2 := pairwise_desc_head_ub hsorted z hz
      exact le_antisymm (hub' a (by simp)) (hzM ▸ h1)
    have hb : b.2 = M := by
      by_contra hbne
      have hblt : b.2 < M := lt_of_le_of_ne (hub' b (by simp)) hbne
      have htail : ∀ z ∈ b :: tail, z.2 ≤ b.2 :=
        pairwise_desc_head_ub (List.pairwise_cons.mp hsorted).2
      have hzero : (b :: tail).countP (fun z => decide (z.2 = M)) = 0 := by
        rw [List.countP_eq_zero]
        intro z hz
        simp only [decide_eq_true_eq]
        exact ne_of_lt (lt_of_le_of_lt (htail z hz) hblt)
      rw [List.countP_cons, hzero] at hcount'
      split at hcount' <;> omega
    rw [hres, if_pos (ha.trans hb.symm)]

/-- When exactly one group member attains the greatest priority, the
resolver registers that member, whatever ties exist lower down. -/
lemma resolveGroup_unique_max {k : Option Token} {impls : List (Cls × Int)} {M : Int}
    (hub : ∀ y ∈ impls, y.2 ≤ M)
    (hcount : impls.countP (fun y => decide (y.2 = M)) = 1) :
    ∃ x ∈ impls, resolveGroup k impls = .ok ⟨k, x.1⟩ ∧ x.2 = M
      ∧ ∀ y ∈ impls, y ≠ x → y.2 < M := by
  match impls with
  | [] => simp [List.countP_nil] at hcount
  | [x] =>
    have hx : x.2 = M := by
      rw [List.countP_cons, List.countP_nil] at hcount
      split at hcount
      · next h => exact of_decide_eq_true h
      · omega
    refine ⟨x, by simp, resolveGroup_singleton k x, hx, ?_⟩
    intro y hy hne
    rcases List.mem_cons.mp hy with rfl | h
    · exact absurd rfl hne
    · cases h
  | x :: y :: xs =>
    obtain ⟨a, b, tail, hs, hres⟩ := resolveGroup_eq_of_two k x y xs
    have hperm : List.Perm (a :: b :: tail) (x :: y :: xs) := by
      rw [← hs]; exact List.mergeSort_perm _ _
    have hsorted : (a :: b :: tail).Pairwise (fun p q => q.2 ≤ p.2) := by
      rw [← hs]; exact mergeSort_sorted_desc _
    have hub' : ∀ z ∈ a :: b :: tail, z.2 ≤ M := fun z hz => hub z (hperm.subset hz)
    have hcount' : (a :: b :: tail).countP (fun z => decide (z.2 = M)) = 1 := by
      rw [hperm.countP_eq]; exact hcount
    have hattain : ∃ z, z ∈ (a :: b :: tail) ∧ z.2 = M := by
      have hpos : 0 < (a :: b :: tail).countP (fun z => decide (z.2 = M)) := by omega
      simpa using List.countP_pos_iff.mp hpos
    have ha : a.2 = M := by
      obtain ⟨z, hz, hzM⟩ := hattain
      have h1 : z.2 ≤ a.2 := pairwise_desc_head_ub hsorted z hz
      exact le_antisymm (hub' a (by simp)) (hzM ▸ h1)
    have htail1 : (b :: tail).countP (fun z => decide (z.2 = M)) = 0 := by
      rw [List.countP_cons] at hcount'
      split at hcount'
      · omega
      · next h => exact absurd (decide_eq_true ha) h
    have hb : b.2 ≠ M := by
      intro hbM
      have : 0 < (b :: tail).countP (fun z => decide (z.2 = M)) :=
        List.countP_pos_iff.mpr ⟨b, by simp, decide_eq_true hbM⟩
      omega
    refine ⟨a, hperm.subset (by simp), ?_, ha, ?_⟩
    · rw [hres, if_neg (by rw [ha]; exact fun h => hb h.symm)]
    · intro z hz hza
      have hzle : z.2 ≤ M := hub z hz
      rcases lt_or_eq_of_le hzle with h | h
      · exact h
      · exfalso
        have hzmem : z ∈ a :: b :: tail := hperm.mem_iff.mpr hz
        rcases List.mem_cons.mp hzmem with rfl | hz'
        · exact hza rfl
        · have : 0 < (b :: tail).countP (fun w => decide (w.2 = M)) :=
            List.countP_pos_iff.mpr ⟨z, hz', decide_eq_true h⟩
          omega

/-- **C1**: for a group of provider candidates sharing one token (with `M`
its highest priority): a one-member group registers that member; when at
least two members attain the highest priority the resolution throws the
conflict naming the token; otherwise the unique highest-priority member is
registered. -/
theorem autoModule_group_conflict_policy (classes : List Cls) (k : Option Token)
    (impls : List (Cls × Int)) (M : Int)
    (_hmem : (k, impls) ∈ buildImplMap classes)
    (hub : ∀ y ∈ impls, y.2 ≤ M)
    (_hM : ∃ y, y ∈ impls ∧ y.2 = M) :
    (∀ x, impls = [x] → resolveGroup k impls = .ok ⟨k, x.1⟩)
    ∧ (2 ≤ impls.countP (fun y => decide (y.2 = M)) → resolveGroup k impls = .error k)
    ∧ (impls.countP (fun y => decide (y.2 = M)) = 1 →
        ∃ x, x ∈ impls ∧ resolveGroup k impls = .ok ⟨k, x.1⟩ ∧ x.2 = M
          ∧ ∀ y ∈ impls, y ≠ x → y.2 < M) := by
  refine ⟨?_, ?_, ?_⟩
  · rintro x rfl
    exact resolveGroup_singleton k x
  · exact fun h => resolveGroup_conflict hub h
  · intro h
    obtain ⟨x, hx, hres, hxM, huniq⟩ := resolveGroup_unique_max (k := k) hub h
    exact ⟨x, hx, hres, hxM, huniq⟩

/-- Witness for C1 on the spec's tie example: three candidates for one
identity with priorities 10, 10, 5 (the conflict branch fires). -/
theorem autoModule_group_conflict_policy_witness :
    ((some (Token.iface "X"),
        [(⟨1, ⟨true, false, some (Token.iface "X"), some 10⟩⟩, 10),
         (⟨2, ⟨true, false, some (Token.iface "X"), some 10⟩⟩, 10),
         (⟨3, ⟨true, false, some (Token.iface "X"), some 5⟩⟩, 5)])
        ∈ buildImplMap
          [⟨1, ⟨true, false, some (Token.iface "X"), some 10⟩⟩,
           ⟨2, ⟨true, false, some (Token.iface "X"), some 10⟩⟩,
           ⟨3, ⟨true, false, some (Token.iface "X"), some 5⟩⟩]
      ∧ (∀ y ∈ [((⟨1, ⟨true, false, some (Token.iface "X"), some 10⟩⟩ : Cls), (10 : Int)),
           (⟨2, ⟨true, false, some (Token.iface "X"), some 10⟩⟩, 10),
           (⟨3, ⟨true, false, some (Token.iface "X"), some 5⟩⟩, 5)], y.2 ≤ 10)
      ∧ (∃ y, y ∈ [((⟨1, ⟨true, false, some (Token.iface "X"), some 10⟩⟩ : Cls), (10 : Int)),
           (⟨2, ⟨true, false, some (Token.iface "X"), some 10⟩⟩, 10),
           (⟨3, ⟨true, false, some (Token.iface "X"), some 5⟩⟩, 5)] ∧ y.2 = 10))
    ∧ (2 ≤ ([((⟨1, ⟨true, false, some (Token.iface "X"), some 10⟩⟩ : Cls), (10 : Int)),
           (⟨2, ⟨true, false, some (Token.iface "X"), some 10⟩⟩, 10),
           (⟨3, ⟨true, false, some (Token.iface "X"), some 5⟩⟩, 5)].countP
            (fun y => decide (y.2 = 10))) →
        resolveGroup (some (Token.iface "X"))
          [(⟨1, ⟨true, false, some (Token.iface "X"), some 10⟩⟩, 10),
           (⟨2, ⟨true, false, some (Token.iface "X"), some 10⟩⟩, 10),
           (⟨3, ⟨true, false, some (Token.iface "X"), some 5⟩⟩, 5)]
          = .error (some (Token.iface "X"))) := by
  constructor
  · refine ⟨by decide, by decide, ?_⟩
    exact ⟨(⟨1, ⟨true, false, some (Token.iface "X"), some 10⟩⟩, 10), by decide, by decide⟩
  · exact (autoModule_group_conflict_policy
      [⟨1, ⟨true, false, some (Token.iface "X"), some 10⟩⟩,
       ⟨2, ⟨true, false, some (Token.iface "X"), some 10⟩⟩,
       ⟨3, ⟨true, false, some (Token.iface "X"), some 5⟩⟩] _ _ 10 (by decide) (by decide)
      ⟨(⟨1, ⟨true, false, some (Token.iface "X"), some 10⟩⟩, 10), by decide, by decide⟩).2.1

/-- **C9**: when the greatest priority of a group is attained by exactly one
member, resolution succeeds with that member even if lower-ranked members
tie among themselves — the conflict check only concerns the two top entries
of the descending sort. -/
theorem autoModule_lower_ties_allowed (classes : List Cls) (k : Option Token)
    (impls : List (Cls × Int)) (M : Int)
    (_hmem : (k, impls) ∈ buildImplMap classes)
    (hub : ∀ y ∈ impls, y.2 ≤ M)
    (hcount : impls.countP (fun y => decide (y.2 = M)) = 1) :
    ∃ x, x ∈ impls ∧ resolveGroup k impls = .ok ⟨k, x.1⟩ ∧ x.2 = M := by
  obtain ⟨x, hx, hres, hxM, _⟩ := resolveGroup_unique_max (k := k) hub hcount
  exact ⟨x, hx, hres, hxM⟩

/-- Witness for C9 on priorities 10, 5, 5: the priority-10 unit wins with
no error despite the tie below it. -/
theorem autoModule_lower_ties_allowed_witness :
    ((some (Token.iface "X"),
        [(⟨1, ⟨true, false, some (Token.iface "X"), some 10⟩⟩, 10),
         (⟨2, ⟨true, false, some (Token.iface "X"), some 5⟩⟩, 5),
         (⟨3, ⟨true, false, some (Token.iface "X"), some 5⟩⟩, 5)])
        ∈ buildImplMap
          [⟨1, ⟨true, false, some (Token.iface "X"), some 10⟩⟩,
           ⟨2, ⟨true, false, some (Token.iface "X"), some 5⟩⟩,
           ⟨3, ⟨true, false, some (Token.iface "X"), some 5⟩⟩]
      ∧ (∀ y ∈ [((⟨1, ⟨true, false, some (Token.iface "X"), some 10⟩⟩ : Cls), (10 : Int)),
           (⟨2, ⟨true, false, some (Token.iface "X"), some 5⟩⟩, 5),
           (⟨3, ⟨true, false, some (Token.iface "X"), some 5⟩⟩, 5)], y.2 ≤ 10)
      ∧ ([((⟨1, ⟨true, false, some (Token.iface "X"), some 10⟩⟩ : Cls), (10 : Int)),
           (⟨2, ⟨true, false, some (Token.iface "X"), some 5⟩⟩, 5),
           (⟨3, ⟨true, false, some (Token.iface "X"), some 5⟩⟩, 5)].countP
            (fun y => decide (y.2 = 10)) = 1))
    ∧ ∃ x, x ∈ [((⟨1, ⟨true, false, some (Token.iface "X"), some 10⟩⟩ : Cls), (10 : Int)),
           (⟨2, ⟨true, false, some (Token.iface "X"), some 5⟩⟩, 5),
           (⟨3, ⟨true, false, some (Token.iface "X"), some 5⟩⟩, 5)]
        ∧ resolveGroup (some (Token.iface "X"))
            [(⟨1, ⟨true, false, some (Token.iface "X"), some 10⟩⟩, 10),
             (⟨2, ⟨true, false, some (Token.iface "X"), some 5⟩⟩, 5),
             (⟨3, ⟨true, false, some (Token.iface "X"), some 5⟩⟩, 5)] = .ok ⟨some (Token.iface "X"), x.1⟩
        ∧ x.2 = 10 :=
  ⟨⟨by decide, by decide, by decide⟩,
    autoModule_lower_ties_allowed
      [⟨1, ⟨true, false, some (Token.iface "X"), some 10⟩⟩,
       ⟨2, ⟨true, false, some (Token.iface "X"), some 5⟩⟩,
       ⟨3, ⟨true, false, some (Token.iface "X"), some 5⟩⟩] _ _ 10 (by decide) (by decide) (by decide)⟩

/-- `pushImpl` keeps the key sequence, appending the key when new. -/
lemma pushImpl_map_fst (m : ImplMap) (k : Option Token) (v : Cls × Int) :
    (pushImpl m k v).map Prod.fst
      = if k ∈ m.map Prod.fst then m.map Prod.fst else m.map Prod.fst ++ [k] := by
  induction m with
  | nil => simp [pushImpl]
  | cons a rest ih =>
    obtain ⟨k', g⟩ := a
    by_cases h : k' = k
    · subst h
      simp [pushImpl]
    · by_cases hmem : k ∈ rest.map Prod.fst
      · simp [pushImpl, h, ih, hmem, Ne.symm h]
      · simp [pushImpl, h, ih, hmem, Ne.symm h]

/-- `pushImpl` preserves distinctness of the map's keys. -/
lemma pushImpl_keys_nodup {m : ImplMap} (h : (m.map Prod.fst).Nodup)
    (k : Option Token) (v : Cls × Int) :
    ((pushImpl m k v).map Prod.fst).Nodup := by
  rw [pushImpl_map_fst]
  split
  · exact h
  · next hk => simp [List.nodup_append, h, hk]

/-- The grouping map of `AutoModule` never holds a key twice. -/
lemma addProviderClass_keys_nodup {m : ImplMap} (h : (m.map Prod.fst).Nodup) (c : Cls) :
    ((addProviderClass m c).map Prod.fst).Nodup := by
  unfold addProviderClass
  split
  · exact pushImpl_keys_nodup h _ _
  · exact h

lemma buildImplMap_keys_nodup (classes : List Cls) :
    ((buildImplMap classes).map Prod.fst).Nodup := by
  suffices h : ∀ m : ImplMap, (m.map Prod.fst).Nodup →
      ((classes.foldl addProviderClass m).map Prod.fst).Nodup by
    exact h [] (by simp)
  induction classes with
  | nil => intro m hm; exact hm
  | cons c rest ih =>
    intro m hm
    simp only [List.foldl_cons]
    exact ih _ (addProviderClass_keys_nodup hm c)

/-- A successful group resolution registers the group's own token. -/
lemma resolveGroup_ok_provide {k : Option Token} {g : List (Cls × Int)} {b : ProviderBinding}
    (h : resolveGroup k g = .ok b) : b.provide = k := by
  match g with
  | [] =>
    simp [resolveGroup, List.mergeSort_nil] at h
  | [x] =>
    rw [resolveGroup_singleton] at h
    cases h
    rfl
  | x :: y :: xs =>
    obtain ⟨a, b', tail, _, hres⟩ := resolveGroup_eq_of_two k x y xs
    rw [hres] at h
    split at h
    · cases h
    · cases h
      rfl

/-- Inversion of a successful `resolveGroups` run: each group resolved to
the binding at its position. -/
lemma resolveGroups_ok_forall₂ {m : ImplMap} {bs : List ProviderBinding}
    (h : resolveGroups m = .ok bs) :
    List.Forall₂ (fun g b => resolveGroup g.1 g.2 = .ok b) m bs := by
  induction m generalizing bs with
  | nil =>
    rw [resolveGroups] at h
    cases h
    exact List.Forall₂.nil
  | cons a rest ih =>
    obtain ⟨k, g⟩ := a
    rw [resolveGroups] at h
    cases hb : resolveGroup k g with
    | error e => rw [hb] at h; cases h
    | ok b =>
      rw [hb] at h
      cases hr : resolveGroups rest with
      | error e => rw [hr] at h; cases h
      | ok bs' =>
        rw [hr] at h
        cases h
        exact List.Forall₂.cons hb (ih hr)

/-- Bindings matched groupwise carry exactly the groups' keys. -/
lemma forall₂_map_provide {gs : ImplMap} {bs : List ProviderBinding}
    (h : List.Forall₂ (fun g b => resolveGroup g.1 g.2 = .ok b) gs bs) :
    bs.map ProviderBinding.provide = gs.map Prod.fst := by
  induction h with
  | nil => rfl
  | cons hr _ ih => simp [List.map_cons, ih, resolveGroup_ok_provide hr]

/-- A successful resolution registers exactly the map's keys, in order. -/
lemma resolveGroups_ok_map_provide {m : ImplMap} {bs : List ProviderBinding}
    (h : resolveGroups m = .ok bs) :
    bs.map ProviderBinding.provide = m.map Prod.fst :=
  forall₂_map_provide (resolveGroups_ok_forall₂ h)

/-- **C8**: the provider entries produced by a successful resolution carry
pairwise-distinct `provide` tokens — at most one binding per identity. -/
theorem resolveProviders_unique_tokens (classes : List Cls) (bs : List ProviderBinding)
    (h : resolveProviders classes = .ok bs) :
    bs.Pairwise (fun b₁ b₂ => b₁.provide ≠ b₂.provide) := by
  have hmap : bs.map ProviderBinding.provide = (buildImplMap classes).map Prod.fst :=
    resolveGroups_ok_map_provide h
  have hnd : (bs.map ProviderBinding.provide).Nodup := by
    rw [hmap]
    exact buildImplMap_keys_nodup classes
  exact List.pairwise_map.mp hnd

/-- Witness for C8: two tagged classes with distinct identities resolve to
two bindings with distinct tokens. -/
theorem resolveProviders_unique_tokens_witness :
    resolveProviders
        [⟨1, ⟨true, false, some (Token.iface "A"), none⟩⟩,
         ⟨2, ⟨true, false, some (Token.iface "B"), none⟩⟩]
      = .ok [⟨some (Token.iface "A"), ⟨1, ⟨true, false, some (Token.iface "A"), none⟩⟩⟩,
             ⟨some (Token.iface "B"), ⟨2, ⟨true, false, some (Token.iface "B"), none⟩⟩⟩]
    ∧ List.Pairwise (fun b₁ b₂ => b₁.provide ≠ b₂.provide)
        [(⟨some (Token.iface "A"), ⟨1, ⟨true, false, some (Token.iface "A"), none⟩⟩⟩ :
            ProviderBinding),
         ⟨some (Token.iface "B"), ⟨2, ⟨true, false, some (Token.iface "B"), none⟩⟩⟩] :=
  ⟨rfl,
    resolveProviders_unique_tokens
      [⟨1, ⟨true, false, some (Token.iface "A"), none⟩⟩,
       ⟨2, ⟨true, false, some (Token.iface "B"), none⟩⟩] _ rfl⟩

/-! ## Helper lemmas: group contents and self-binding -/

/-- Pushing under a key appends to that key's group (creating it at `[]`). -/
lemma groupOf_pushImpl_same (m : ImplMap) (k : Option Token) (v : Cls × Int) :
    groupOf k (pushImpl m k v) = some ((groupOf k m).getD [] ++ [v]) := by
  induction m with
  | nil => simp [pushImpl, groupOf]
  | cons a rest ih =>
    obtain ⟨k', g⟩ := a
    by_cases h : k' = k
    · subst h
      simp [pushImpl, groupOf]
    · simp [pushImpl, groupOf, h, ih]

/-- Pushing under one key leaves every other key's group unchanged. -/
lemma groupOf_pushImpl_other (m : ImplMap) (k k' : Option Token) (v : Cls × Int)
    (h : k' ≠ k) : groupOf k (pushImpl m k' v) = groupOf k m := by
  induction m with
  | nil => simp [pushImpl, groupOf, h]
  | cons a rest ih =>
    obtain ⟨k'', g⟩ := a
    by_cases h2 : k'' = k'
    · subst h2
      simp [pushImpl, groupOf, h]
    · simp [pushImpl, groupOf, h2, ih]

/-- One grouping step, seen through a fixed key. -/
lemma groupOf_addProviderClass (m : ImplMap) (c : Cls) (k : Option Token) :
    groupOf k (addProviderClass m c)
      = if isAutoInjectable c = true ∧ getAutoInjectableToken c = k
          then some ((groupOf k m).getD [] ++ [(c, getAutoInjectablePriority c)])
          else groupOf k m := by
  unfold addProviderClass
  by_cases hc : isAutoInjectable c = true
  · by_cases htok : getAutoInjectableToken c = k
    · rw [if_pos hc, htok, groupOf_pushImpl_same, if_pos ⟨hc, rfl⟩]
    · rw [if_pos hc, groupOf_pushImpl_other _ _ _ _ htok, if_neg (fun h => htok h.2)]
  · rw [if_neg hc, if_neg (fun h => hc h.1)]

/-- The candidate list of a key, unfolded over the head class. -/
lemma candidatesFor_cons (k : Option Token) (c : Cls) (rest : List Cls) :
    candidatesFor k (c :: rest)
      = if isAutoInjectable c = true ∧ getAutoInjectableToken c = k
          then (c, getAutoInjectablePriority c) :: candidatesFor k rest
          else candidatesFor k rest := by
  by_cases hc : isAutoInjectable c = true ∧ getAutoInjectableToken c = k
  · simp [candidatesFor, List.filter_cons, hc.1, hc.2, hc]
  · have hcond : ¬((isAutoInjectable c && decide (getAutoInjectableToken c = k)) = true) := by
      simp only [Bool.and_eq_true, decide_eq_true_eq]
      exact hc
    simp [candidatesFor, List.filter_cons, hcond, hc]

/-- The group of a key after the whole grouping fold: whatever the key
already held, extended by the key's candidates in scan order. -/
lemma groupOf_foldl_addProviderClass (classes : List Cls) (m : ImplMap) (k : Option Token) :
    groupOf k (classes.foldl addProviderClass m)
      = match groupOf k m with
        | some g => some (g ++ candidatesFor k classes)
        | none =>
          if candidatesFor k classes = [] then none
          else some (candidatesFor k classes) := by
  induction classes generalizing m with
  | nil =>
    cases hg : groupOf k m <;> simp [candidatesFor, hg]
  | cons c rest ih =>
    simp only [List.foldl_cons]
    rw [ih, candidatesFor_cons, groupOf_addProviderClass]
    by_cases hc : isAutoInjectable c = true ∧ getAutoInjectableToken c = k
    · rw [if_pos hc, if_pos hc]
      cases hg : groupOf k m with
      | some g => simp
      | none => simp
    · rw [if_neg hc, if_neg hc]

/-- The group stored under a key in `buildImplMap` is exactly the key's
candidate list (absent when there is no candidate). -/
lemma buildImplMap_groupOf (classes : List Cls) (k : Option Token) :
    groupOf k (buildImplMap classes)
      = if candidatesFor k classes = [] then none
        else some (candidatesFor k classes) := by
  unfold buildImplMap
  rw [groupOf_foldl_addProviderClass]
  rfl

/-- A stored group is a member of the map. -/
lemma mem_of_groupOf {m : ImplMap} {k : Option Token} {g : List (Cls × Int)}
    (h : groupOf k m = some g) : (k, g) ∈ m := by
  induction m with
  | nil => simp [groupOf] at h
  | cons a rest ih =>
    obtain ⟨k', g'⟩ := a
    by_cases hk : k' = k
    · subst hk
      rw [groupOf, if_pos rfl] at h
      cases h
      exact List.mem_cons_self _ _
    · rw [groupOf, if_neg hk] at h
      exact List.mem_cons_of_mem _ (ih h)

/-- A member of the left list of a `Forall₂` relation has a related member
on the right. -/
lemma forall₂_mem_left {α β : Type} {R : α → β → Prop} {l₁ : List α} {l₂ : List β}
    (h : List.Forall₂ R l₁ l₂) {a : α} (ha : a ∈ l₁) : ∃ b ∈ l₂, R a b := by
  induction h with
  | nil => cases ha
  | cons hr ht ih =>
    rcases List.mem_cons.mp ha with rfl | ha'
    · exact ⟨_, List.mem_cons_self _ _, hr⟩
    · obtain ⟨b, hb, hRb⟩ := ih ha'
      exact ⟨b, List.mem_cons_of_mem _ hb, hRb⟩

/-- When the `provide` tokens of a binding list are distinct, filtering by
one member's token returns that member alone. -/
lemma filter_provide_eq_singleton {bs : List ProviderBinding}
    (hnd : (bs.map ProviderBinding.provide).Nodup) {b : ProviderBinding} (hb : b ∈ bs) :
    bs.filter (fun x => decide (x.provide = b.provide)) = [b] := by
  induction bs with
  | nil => cases hb
  | cons a l ih =>
    rw [List.map_cons, List.nodup_cons] at hnd
    obtain ⟨hfa, hnd'⟩ := hnd
    rcases List.mem_cons.mp hb with rfl | hb'
    · rw [List.filter_cons, if_pos (by simp)]
      have hnil : l.filter (fun x => decide (x.provide = b.provide)) = [] := by
        rw [List.filter_eq_nil_iff]
        intro x hx
        simp only [decide_eq_true_eq]
        intro hxa
        exact hfa (hxa ▸ List.mem_map_of_mem _ hx)
      rw [hnil]
    · have hab : ¬(a.provide = b.provide) := by
        intro he
        exact hfa (by rw [he]; exact List.mem_map_of_mem _ hb')
      rw [List.filter_cons, if_neg (by simpa using hab)]
      exact ih hnd' hb'

/-- **C4**: a class tagged `@AutoInjectable` with no `interfaceMetadata`
gets itself as its associated token; when it is the only candidate for that
self token among the scanned classes, a successful resolution registers
exactly one binding keyed by the self token, binding the class itself. -/
theorem autoInjectable_self_binding (classes : List Cls) (c target : Cls)
    (options : AutoInjectableOptions) (bs : List ProviderBinding)
    (hopt : options.interfaceMetadata = none)
    (hc : c = AutoInjectable options target)
    (hmem : c ∈ classes)
    (huniq : classes.countP
        (fun d => isAutoInjectable d
          && decide (getAutoInjectableToken d = some (Token.cls c.id))) = 1)
    (hok : resolveProviders classes = .ok bs) :
    bs.filter (fun b => decide (b.provide = some (Token.cls c.id)))
      = [⟨some (Token.cls c.id), c⟩] := by
  have hcinj : isAutoInjectable c = true := by rw [hc]; rfl
  have hctok : getAutoInjectableToken c = some (Token.cls c.id) := by
    rw [hc]
    simp [AutoInjectable, getAutoInjectableToken, hopt]
  have hfilter : classes.filter
      (fun d => isAutoInjectable d
        && decide (getAutoInjectableToken d = some (Token.cls c.id))) = [c] := by
    have hlen : (classes.filter
        (fun d => isAutoInjectable d
          && decide (getAutoInjectableToken d = some (Token.cls c.id)))).length = 1 := by
      rw [← List.countP_eq_length_filter]
      exact huniq
    obtain ⟨d, hd⟩ := List.length_eq_one.mp hlen
    have hcmem : c ∈ classes.filter
        (fun d => isAutoInjectable d
          && decide (getAutoInjectableToken d = some (Token.cls c.id))) :=
      List.mem_filter.mpr ⟨hmem, by rw [hcinj, hctok]; simp⟩
    rw [hd] at hcmem
    have hcd : c = d := List.mem_singleton.mp hcmem
    rw [hd, hcd]
  have hcand : candidatesFor (some (Token.cls c.id)) classes
      = [(c, getAutoInjectablePriority c)] := by
    unfold candidatesFor
    rw [hfilter]
    rfl
  have hgroup : groupOf (some (Token.cls c.id)) (buildImplMap classes)
      = some [(c, getAutoInjectablePriority c)] := by
    rw [buildImplMap_groupOf, hcand]
    simp
  have hmem2 : ((some (Token.cls c.id) : Option Token),
      [(c, getAutoInjectablePriority c)]) ∈ buildImplMap classes :=
    mem_of_groupOf hgroup
  obtain ⟨b, hbmem, hbres⟩ := forall₂_mem_left (resolveGroups_ok_forall₂ hok) hmem2
  rw [resolveGroup_singleton] at hbres
  cases hbres
  have hnd : (bs.map ProviderBinding.provide).Nodup := by
    rw [resolveGroups_ok_map_provide hok]
    exact buildImplMap_keys_nodup classes
  exact filter_provide_eq_singleton hnd hbmem

/-- Witness for C4: one class decorated with no explicit identity, scanned
alone, yields the single self-keyed binding. -/
theorem autoInjectable_self_binding_witness :
    ((⟨none, none⟩ : AutoInjectableOptions).interfaceMetadata = none
      ∧ (⟨7, ⟨true, false, some (Token.cls 7), none⟩⟩ : Cls)
          = AutoInjectable ⟨none, none⟩ ⟨7, {}⟩
      ∧ (⟨7, ⟨true, false, some (Token.cls 7), none⟩⟩ : Cls)
          ∈ [(⟨7, ⟨true, false, some (Token.cls 7), none⟩⟩ : Cls)]
      ∧ [(⟨7, ⟨true, false, some (Token.cls 7), none⟩⟩ : Cls)].countP
          (fun d => isAutoInjectable d
            && decide (getAutoInjectableToken d
                = some (Token.cls (⟨7, ⟨true, false, some (Token.cls 7), none⟩⟩ : Cls).id))) = 1
      ∧ resolveProviders [(⟨7, ⟨true, false, some (Token.cls 7), none⟩⟩ : Cls)]
          = .ok [⟨some (Token.cls 7), ⟨7, ⟨true, false, some (Token.cls 7), none⟩⟩⟩])
    ∧ [(⟨some (Token.cls 7), ⟨7, ⟨true, false, some (Token.cls 7), none⟩⟩⟩ :
          ProviderBinding)].filter
        (fun b => decide (b.provide
            = some (Token.cls (⟨7, ⟨true, false, some (Token.cls 7), none⟩⟩ : Cls).id)))
        = [⟨some (Token.cls (⟨7, ⟨true, false, some (Token.cls 7), none⟩⟩ : Cls).id),
            ⟨7, ⟨true, false, some (Token.cls 7), none⟩⟩⟩] :=
  ⟨⟨rfl, rfl, by decide, by decide, rfl⟩,
    autoInjectable_self_binding
      [⟨7, ⟨true, false, some (Token.cls 7), none⟩⟩]
      ⟨7, ⟨true, false, some (Token.cls 7), none⟩⟩
      ⟨7, {}⟩ ⟨none, none⟩
      [⟨some (Token.cls 7), ⟨7, ⟨true, false, some (Token.cls 7), none⟩⟩⟩]
      rfl rfl (by decide) (by decide) rfl⟩

/-! ## Helper lemmas: unit loader -/

/-- Looking up through an appended cache entry: a previous hit is
unchanged, a miss sees the new entry. -/
lemma cacheLookup_append_single (q p : String) (l : List (String × Option String))
    (x : Option String) :
    cacheLookup q (l ++ [(p, x)])
      = match cacheLookup q l with
        | some v => some v
        | none => if p = q then some x else none := by
  induction l with
  | nil => simp [cacheLookup]
  | cons a rest ih =>
    obtain ⟨r, w⟩ := a
    by_cases h : r = q
    · simp [cacheLookup, h]
    · simp [cacheLookup, h, ih]

/-- The content `getFileContent` answers is always the filesystem's, as
long as every cached value is the filesystem's. -/
lemma getFileContent_content {fs : FileSys} {p : String} {st : LoaderState}
    (hfaith : ∀ q v, cacheLookup q st.cache = some v → v = fs.content q) :
    (getFileContent fs p st).1 = fs.content p := by
  unfold getFileContent
  cases hl : cacheLookup p st.cache with
  | some v => exact hfaith p v hl
  | none => cases hc : fs.content p <;> rfl

/-- `getFileContent` never touches the `require` log. -/
lemma getFileContent_required (fs : FileSys) (p : String) (st : LoaderState) :
    (getFileContent fs p st).2.required = st.required := by
  unfold getFileContent
  cases hl : cacheLookup p st.cache with
  | some v => rfl
  | none => cases hc : fs.content p <;> rfl

/-- A cache hit leaves the loader state untouched (in particular: no read). -/
lemma getFileContent_of_cached {fs : FileSys} {p : String} {st : LoaderState} {v : Option String}
    (h : cacheLookup p st.cache = some v) :
    getFileContent fs p st = (v, st) := by
  unfold getFileContent
  rw [h]

/-- `getFileContent` preserves cache faithfulness. -/
lemma getFileContent_faithful {fs : FileSys} {p : String} {st : LoaderState}
    (hfaith : ∀ q v, cacheLookup q st.cache = some v → v = fs.content q) :
    ∀ q v, cacheLookup q (getFileContent fs p st).2.cache = some v → v = fs.content q := by
  intro q v hq
  unfold getFileContent at hq
  cases hl : cacheLookup p st.cache with
  | some w =>
    rw [hl] at hq
    exact hfaith q v hq
  | none =>
    rw [hl] at hq
    cases hc : fs.content p with
    | some c =>
      rw [hc] at hq
      simp only [cacheLookup_append_single] at hq
      cases hq' : cacheLookup q st.cache with
      | some w => rw [hq'] at hq; cases hq; exact hfaith q _ hq'
      | none =>
        rw [hq'] at hq
        by_cases hpq : p = q
        · rw [if_pos hpq] at hq
          cases hq
          rw [← hpq, hc]
        · rw [if_neg hpq] at hq
          cases hq
    | none =>
      rw [hc] at hq
      simp only [cacheLookup_append_single] at hq
      cases hq' : cacheLookup q st.cache with
      | some w => rw [hq'] at hq; cases hq; exact hfaith q _ hq'
      | none =>
        rw [hq'] at hq
        by_cases hpq : p = q
        · rw [if_pos hpq] at hq
          cases hq
          rw [← hpq, hc]
        · rw [if_neg hpq] at hq
          cases hq

/-- Existing cache entries survive `getFileContent`. -/
lemma getFileContent_cache_mono {fs : FileSys} {p q : String} {st : LoaderState}
    {v : Option String} (h : cacheLookup q st.cache = some v) :
    cacheLookup q (getFileContent fs p st).2.cache = some v := by
  unfold getFileContent
  cases hl : cacheLookup p st.cache with
  | some w => exact h
  | none =>
    cases hc : fs.content p <;>
      simp only [cacheLookup_append_single, h]

/-- After `getFileContent`, the queried path is cached. -/
lemma getFileContent_caches (fs : FileSys) (p : String) (st : LoaderState) :
    (cacheLookup p (getFileContent fs p st).2.cache).isSome := by
  unfold getFileContent
  cases hl : cacheLookup p st.cache with
  | some w => simp [hl]
  | none =>
    cases hc : fs.content p <;>
      simp [cacheLookup_append_single, hl]

/-- Computation rule: a non-`.ts`/`.js` location is skipped outright. -/
lemma loadIfAnnotated_eq_nonTs (fs : FileSys) (p : String) (st : LoaderState)
    (hts : isTsOrJs p = false) :
    loadClassesFromFileIfAnnotated fs p st = .ok ([], st) := by
  unfold loadClassesFromFileIfAnnotated
  rw [if_neg (by simp [hts])]

/-- Computation rule: an unreadable location (no content) is skipped. -/
lemma loadIfAnnotated_eq_none {fs : FileSys} {p : String} {st st₁ : LoaderState}
    (hts : isTsOrJs p = true) (hg : getFileContent fs p st = (none, st₁)) :
    loadClassesFromFileIfAnnotated fs p st = .ok ([], st₁) := by
  unfold loadClassesFromFileIfAnnotated
  rw [if_pos hts, hg]

/-- Computation rule: a readable `.ts`/`.js` location reduces to the
empty-content and marker tests over its content. -/
lemma loadIfAnnotated_eq_some {fs : FileSys} {p content : String} {st st₁ : LoaderState}
    (hts : isTsOrJs p = true) (hg : getFileContent fs p st = (some content, st₁)) :
    loadClassesFromFileIfAnnotated fs p st
      = if strIsEmpty content then .ok ([], st₁)
        else if (includes content "@AutoInjectable("
            || includes content "@AutoController(") then
          loadClassesFromFile fs p st₁
        else .ok ([], st₁) := by
  unfold loadClassesFromFileIfAnnotated
  rw [if_pos hts, hg]

/-- **C5** (amended): over a faithful cache, for a location with readable
content: when the path has a `.ts`/`.js` extension and the raw content
mentions either decorator marker, the location is fully loaded (`require`
is invoked on it); when the content mentions neither marker, the location
is never fully loaded, whatever its extension. -/
theorem preFilter_marker_gates_require (fs : FileSys) (p content : String) (st : LoaderState)
    (hfaith : ∀ q v, cacheLookup q st.cache = some v → v = fs.content q)
    (hc : fs.content p = some content) :
    (isTsOrJs p = true →
      (includes content "@AutoInjectable(" || includes content "@AutoController(") = true →
      resultRequired (loadClassesFromFileIfAnnotated fs p st) = st.required ++ [p])
    ∧ ((includes content "@AutoInjectable(" || includes content "@AutoController(") = false →
      ∃ st', loadClassesFromFileIfAnnotated fs p st = .ok ([], st')
        ∧ st'.required = st.required) := by
  have h1 : (getFileContent fs p st).1 = some content := by
    rw [getFileContent_content hfaith, hc]
  have hg : getFileContent fs p st = (some content, (getFileContent fs p st).2) := by
    rw [← h1]
  have hreq : (getFileContent fs p st).2.required = st.required :=
    getFileContent_required fs p st
  constructor
  · intro hts hmark
    have hne : strIsEmpty content = false := by
      cases he : strIsEmpty content
      · rfl
      · exfalso
        have hdata : content.data = [] := by
          unfold strIsEmpty at he
          exact List.isEmpty_iff.mp he
        unfold includes at hmark
        rw [hdata] at hmark
        exact absurd hmark (by decide)
    rw [loadIfAnnotated_eq_some hts hg]
    simp only [hne, hmark]
    cases hm : fs.modExports p <;>
      simp [loadClassesFromFile, resultRequired, hm, hreq]
  · intro hmark
    cases hts : isTsOrJs p with
    | false => exact ⟨st, loadIfAnnotated_eq_nonTs fs p st hts, rfl⟩
    | true =>
      refine ⟨(getFileContent fs p st).2, ?_, hreq⟩
      rw [loadIfAnnotated_eq_some hts hg]
      cases he : strIsEmpty content with
      | true => simp [he]
      | false => simp [he, hmark]

/-- Counterexample for C5 as stated: a scanned location whose raw content
contains the provider marker but whose path is not `.ts`/`.js` is never
fully loaded — the scan ends with no class and no `require` recorded. -/
theorem preFilter_marker_txt_not_loaded :
    includes "@AutoInjectable() class Impl" "@AutoInjectable(" = true
    ∧ scanFiles
        ⟨fun p => if p = "impl.txt" then some "@AutoInjectable() class Impl" else none,
         fun p => if p = "impl.txt" then some [⟨9, ⟨true, false, none, none⟩⟩] else none⟩
        ["impl.txt"] initLoaderState
      = .ok ([], initLoaderState) :=
  ⟨by decide, rfl⟩

/-- **C6** (amended): a location whose content cannot be read is skipped
silently — no classes, no surfaced error, `require` untouched — and the
scan continues with the remaining locations. -/
theorem loader_skips_unreadable (fs : FileSys) (p : String) (rest : List String)
    (st : LoaderState)
    (hfail : fs.content p = none)
    (hfaith : ∀ q v, cacheLookup q st.cache = some v → v = fs.content q) :
    ∃ st', loadClassesFromFileIfAnnotated fs p st = .ok ([], st')
      ∧ st'.required = st.required
      ∧ scanFiles fs (p :: rest) st = scanFiles fs rest st' := by
  cases hts : isTsOrJs p with
  | false =>
    refine ⟨st, loadIfAnnotated_eq_nonTs fs p st hts, rfl, ?_⟩
    rw [scanFiles, loadIfAnnotated_eq_nonTs fs p st hts]
    cases h : scanFiles fs rest st <;> simp [h]
  | true =>
    have h1 : (getFileContent fs p st).1 = none := by
      rw [getFileContent_content hfaith, hfail]
    have hg : getFileContent fs p st = (none, (getFileContent fs p st).2) := by
      rw [← h1]
    refine ⟨(getFileContent fs p st).2, loadIfAnnotated_eq_none hts hg,
      getFileContent_required fs p st, ?_⟩
    rw [scanFiles, loadIfAnnotated_eq_none hts hg]
    cases h : scanFiles fs rest ((getFileContent fs p st).2) <;> simp [h]

/-- Counterexample for C6 as stated: an exception thrown while requiring a
marker-bearing `.ts` location propagates out of the scan — the loader does
raise for that single bad file. -/
theorem loader_require_failure_raises :
    scanRaises (scanFiles
        ⟨fun p => if p = "boom.ts" then some "@AutoInjectable() class Boom" else none,
         fun _ => none⟩
        ["boom.ts"] initLoaderState) = true := by
  decide

/-- Witness for the amended C5 at a concrete marker-bearing `.ts` file over
the fresh process state. -/
theorem preFilter_marker_gates_require_witness :
    ((∀ q v, cacheLookup q initLoaderState.cache = some v
        → v = (⟨fun p => if p = "w.ts" then some "@AutoInjectable() class W" else none,
            fun p => if p = "w.ts" then some [⟨4, ⟨true, false, none, none⟩⟩] else none⟩ :
              FileSys).content q)
      ∧ (⟨fun p => if p = "w.ts" then some "@AutoInjectable() class W" else none,
            fun p => if p = "w.ts" then some [⟨4, ⟨true, false, none, none⟩⟩] else none⟩ :
              FileSys).content "w.ts" = some "@AutoInjectable() class W")
    ∧ ((isTsOrJs "w.ts" = true →
        (includes "@AutoInjectable() class W" "@AutoInjectable("
          || includes "@AutoInjectable() class W" "@AutoController(") = true →
        resultRequired (loadClassesFromFileIfAnnotated
            ⟨fun p => if p = "w.ts" then some "@AutoInjectable() class W" else none,
             fun p => if p = "w.ts" then some [⟨4, ⟨true, false, none, none⟩⟩] else none⟩
            "w.ts" initLoaderState)
          = initLoaderState.required ++ ["w.ts"])
      ∧ ((includes "@AutoInjectable() class W" "@AutoInjectable("
          || includes "@AutoInjectable() class W" "@AutoController(") = false →
        ∃ st', loadClassesFromFileIfAnnotated
            ⟨fun p => if p = "w.ts" then some "@AutoInjectable() class W" else none,
             fun p => if p = "w.ts" then some [⟨4, ⟨true, false, none, none⟩⟩] else none⟩
            "w.ts" initLoaderState = .ok ([], st')
          ∧ st'.required = initLoaderState.required)) :=
  ⟨⟨fun q v hv => by simp [initLoaderState, cacheLookup] at hv, rfl⟩,
    preFilter_marker_gates_require
      ⟨fun p => if p = "w.ts" then some "@AutoInjectable() class W" else none,
       fun p => if p = "w.ts" then some [⟨4, ⟨true, false, none, none⟩⟩] else none⟩
      "w.ts" "@AutoInjectable() class W" initLoaderState
      (fun q v hv => by simp [initLoaderState, cacheLookup] at hv) rfl⟩

/-- Witness for the amended C6: an unreadable location over the fresh
process state is skipped and the scan moves on. -/
theorem loader_skips_unreadable_witness :
    (((⟨fun _ => none, fun _ => none⟩ : FileSys).content "x.ts" = none)
      ∧ (∀ q v, cacheLookup q initLoaderState.cache = some v
          → v = (⟨fun _ => none, fun _ => none⟩ : FileSys).content q))
    ∧ ∃ st', loadClassesFromFileIfAnnotated (⟨fun _ => none, fun _ => none⟩ : FileSys)
          "x.ts" initLoaderState = .ok ([], st')
        ∧ st'.required = initLoaderState.required
        ∧ scanFiles (⟨fun _ => none, fun _ => none⟩ : FileSys) ["x.ts", "y.ts"]
            initLoaderState
          = scanFiles (⟨fun _ => none, fun _ => none⟩ : FileSys) ["y.ts"] st' :=
  ⟨⟨rfl, fun q v hv => by simp [initLoaderState, cacheLookup] at hv⟩,
    loader_skips_unreadable (⟨fun _ => none, fun _ => none⟩ : FileSys) "x.ts" ["y.ts"]
      initLoaderState rfl
      (fun q v hv => by simp [initLoaderState, cacheLookup] at hv)⟩

/-- Computation rule: `require` succeeding returns the exports and logs the
invocation. -/
lemma loadClassesFromFile_eq_some {fs : FileSys} {p : String} (st : LoaderState)
    {cs' : List Cls} (hm : fs.modExports p = some cs') :
    loadClassesFromFile fs p st
      = .ok (cs', { st with required := st.required ++ [p] }) := by
  unfold loadClassesFromFile
  rw [hm]

/-- Computation rule: `require` throwing propagates, with the invocation
logged. -/
lemma loadClassesFromFile_eq_none {fs : FileSys} {p : String} (st : LoaderState)
    (hm : fs.modExports p = none) :
    loadClassesFromFile fs p st
      = .error (p, { st with required := st.required ++ [p] }) := by
  unfold loadClassesFromFile
  rw [hm]

/-- A successful per-file step: existing cache entries survive, cache
faithfulness is preserved, and a `.ts`/`.js` path ends up cached. -/
lemma loadIfAnnotated_ok_state {fs : FileSys} {p : String} {st : LoaderState}
    {cs : List Cls} {st' : LoaderState}
    (h : loadClassesFromFileIfAnnotated fs p st = .ok (cs, st')) :
    (∀ q v, cacheLookup q st.cache = some v → cacheLookup q st'.cache = some v)
    ∧ ((∀ q v, cacheLookup q st.cache = some v → v = fs.content q) →
        ∀ q v, cacheLookup q st'.cache = some v → v = fs.content q)
    ∧ (isTsOrJs p = true → (cacheLookup p st'.cache).isSome) := by
  by_cases hts : isTsOrJs p = true
  · cases hg1 : (getFileContent fs p st).1 with
    | none =>
      have hg : getFileContent fs p st = (none, (getFileContent fs p st).2) := by
        rw [← hg1]
      rw [loadIfAnnotated_eq_none hts hg] at h
      cases h
      exact ⟨fun q v hv => getFileContent_cache_mono hv,
        fun hf => getFileContent_faithful hf,
        fun _ => getFileContent_caches fs p st⟩
    | some content =>
      have hg : getFileContent fs p st = (some content, (getFileContent fs p st).2) := by
        rw [← hg1]
      rw [loadIfAnnotated_eq_some hts hg] at h
      by_cases hemp : strIsEmpty content = true
      · rw [if_pos hemp] at h
        cases h
        exact ⟨fun q v hv => getFileContent_cache_mono hv,
          fun hf => getFileContent_faithful hf,
          fun _ => getFileContent_caches fs p st⟩
      · rw [if_neg hemp] at h
        by_cases hmk : (includes content "@AutoInjectable("
            || includes content "@AutoController(") = true
        · rw [if_pos hmk] at h
          cases hm : fs.modExports p with
          | some cs' =>
            rw [loadClassesFromFile_eq_some _ hm] at h
            cases h
            exact ⟨fun q v hv => getFileContent_cache_mono hv,
              fun hf => getFileContent_faithful hf,
              fun _ => getFileContent_caches fs p st⟩
          | none =>
            rw [loadClassesFromFile_eq_none _ hm] at h
            cases h
        · rw [if_neg hmk] at h
          cases h
          exact ⟨fun q v hv => getFileContent_cache_mono hv,
            fun hf => getFileContent_faithful hf,
            fun _ => getFileContent_caches fs p st⟩
  · have hts' : isTsOrJs p = false := by simpa using hts
    rw [loadIfAnnotated_eq_nonTs fs p st hts'] at h
    cases h
    exact ⟨fun q v hv => hv, fun hf => hf, by simp [hts']⟩

/-- Re-running a successful per-file step from a state whose cache already
holds the path (faithfully) yields the same classes without touching the
cache or performing a read. -/
lemma loadIfAnnotated_second_run {fs : FileSys} {p : String} {st : LoaderState}
    {cs : List Cls} {st' : LoaderState} (t : LoaderState)
    (h : loadClassesFromFileIfAnnotated fs p st = .ok (cs, st'))
    (hfaith_st : ∀ q v, cacheLookup q st.cache = some v → v = fs.content q)
    (hfaith_t : ∀ q v, cacheLookup q t.cache = some v → v = fs.content q)
    (hcached : isTsOrJs p = true → (cacheLookup p t.cache).isSome) :
    ∃ t', loadClassesFromFileIfAnnotated fs p t = .ok (cs, t')
      ∧ t'.cache = t.cache ∧ t'.reads = t.reads := by
  by_cases hts : isTsOrJs p = true
  · obtain ⟨w, hw⟩ := Option.isSome_iff_exists.mp (hcached hts)
    have hwval : w = fs.content p := hfaith_t p w hw
    have hgt : getFileContent fs p t = (w, t) := getFileContent_of_cached hw
    have hg1 : (getFileContent fs p st).1 = fs.content p :=
      getFileContent_content hfaith_st
    cases hcnt : fs.content p with
    | none =>
      have hg : getFileContent fs p st = (none, (getFileContent fs p st).2) := by
        rw [← hcnt, ← hg1]
      rw [loadIfAnnotated_eq_none hts hg] at h
      cases h
      refine ⟨t, ?_, rfl, rfl⟩
      rw [hcnt] at hwval
      subst hwval
      exact loadIfAnnotated_eq_none hts hgt
    | some content =>
      have hg : getFileContent fs p st = (some content, (getFileContent fs p st).2) := by
        rw [← hcnt, ← hg1]
      rw [loadIfAnnotated_eq_some hts hg] at h
      rw [hcnt] at hwval
      subst hwval
      rw [loadIfAnnotated_eq_some hts hgt]
      by_cases hemp : strIsEmpty content = true
      · rw [if_pos hemp] at h ⊢
        cases h
        exact ⟨t, rfl, rfl, rfl⟩
      · rw [if_neg hemp] at h ⊢
        by_cases hmk : (includes content "@AutoInjectable("
            || includes content "@AutoController(") = true
        · rw [if_pos hmk] at h ⊢
          cases hm : fs.modExports p with
          | some cs' =>
            rw [loadClassesFromFile_eq_some _ hm] at h
            cases h
            exact ⟨_, loadClassesFromFile_eq_some t hm, rfl, rfl⟩
          | none =>
            rw [loadClassesFromFile_eq_none _ hm] at h
            cases h
        · rw [if_neg hmk] at h ⊢
          cases h
          exact ⟨t, rfl, rfl, rfl⟩
  · have hts' : isTsOrJs p = false := by simpa using hts
    rw [loadIfAnnotated_eq_nonTs fs p st hts'] at h
    cases h
    exact ⟨t, loadIfAnnotated_eq_nonTs fs p t hts', rfl, rfl⟩

/-- After a successful scan from a faithful state: the final state is
faithful, old cache entries survive, and every scanned `.ts`/`.js` path is
cached. -/
lemma scanFiles_ok_state {fs : FileSys} {ps : List String} {st : LoaderState}
    {cs : List Cls} {st₁ : LoaderState}
    (h : scanFiles fs ps st = .ok (cs, st₁))
    (hfaith : ∀ q v, cacheLookup q st.cache = some v → v = fs.content q) :
    (∀ q v, cacheLookup q st₁.cache = some v → v = fs.content q)
    ∧ (∀ q v, cacheLookup q st.cache = some v → cacheLookup q st₁.cache = some v)
    ∧ (∀ p ∈ ps, isTsOrJs p = true → (cacheLookup p st₁.cache).isSome) := by
  induction ps generalizing st cs with
  | nil =>
    rw [scanFiles] at h
    cases h
    exact ⟨hfaith, fun q v hv => hv, by simp⟩
  | cons p rest ih =>
    rw [scanFiles] at h
    split at h
    · cases h
    · rename_i cs₀ st' hstep
      split at h
      · cases h
      · rename_i cs₁ st₂ hrest
        cases h
        obtain ⟨hmono, hfaithstep, hcachep⟩ := loadIfAnnotated_ok_state hstep
        obtain ⟨hf1, hmono1, hcached1⟩ := ih hrest (hfaithstep hfaith)
        refine ⟨hf1, fun q v hv => hmono1 q v (hmono q v hv), ?_⟩
        intro p' hp' hts'
        rcases List.mem_cons.mp hp' with rfl | hp'rest
        · obtain ⟨v, hv⟩ := Option.isSome_iff_exists.mp (hcachep hts')
          rw [hmono1 p' v hv]
          rfl
        · exact hcached1 p' hp'rest hts'

/-- Re-running a successful scan from a faithful state whose cache already
holds all scanned `.ts`/`.js` paths yields the same classes with no cache
change and no read. -/
lemma scanFiles_second_run {fs : FileSys} (ps : List String) {st : LoaderState}
    {cs : List Cls} {st₁ : LoaderState} (t : LoaderState)
    (h : scanFiles fs ps st = .ok (cs, st₁))
    (hfaith_st : ∀ q v, cacheLookup q st.cache = some v → v = fs.content q)
    (hfaith_t : ∀ q v, cacheLookup q t.cache = some v → v = fs.content q)
    (hcached : ∀ p ∈ ps, isTsOrJs p = true → (cacheLookup p t.cache).isSome) :
    ∃ t₂, scanFiles fs ps t = .ok (cs, t₂)
      ∧ t₂.cache = t.cache ∧ t₂.reads = t.reads := by
  induction ps generalizing st t cs with
  | nil =>
    rw [scanFiles] at h
    cases h
    exact ⟨t, rfl, rfl, rfl⟩
  | cons p rest ih =>
    rw [scanFiles] at h
    split at h
    · cases h
    · rename_i cs₀ st' hstep
      split at h
      · cases h
      · rename_i cs₁ st₂ hrest
        cases h
        obtain ⟨_, hfaithstep, _⟩ := loadIfAnnotated_ok_state hstep
        obtain ⟨t', ht', htc, htr⟩ :=
          loadIfAnnotated_second_run t hstep hfaith_st hfaith_t
            (hcached p (List.mem_cons_self p rest))
        have hfaith_t' : ∀ q v, cacheLookup q t'.cache = some v → v = fs.content q := by
          rw [htc]
          exact hfaith_t
        have hcached' : ∀ p' ∈ rest, isTsOrJs p' = true →
            (cacheLookup p' t'.cache).isSome := by
          rw [htc]
          exact fun p' hp' => hcached p' (List.mem_cons_of_mem p hp')
        obtain ⟨t₂, hrest2, htc2, htr2⟩ :=
          ih t' hrest (hfaithstep hfaith_st) hfaith_t' hcached'
        refine ⟨t₂, ?_, htc2.trans htc, htr2.trans htr⟩
        rw [scanFiles, ht']
        simp [hrest2]

/-- **C7**: a second scan over the same paths, within the same process,
performs no further raw read: every path was cached by the first scan, so
the second scan answers from the cache, returns the same classes and leaves
the read counter unchanged. -/
theorem loader_cache_no_reread (fs : FileSys) (ps : List String) (st : LoaderState)
    (cs : List Cls) (st₁ : LoaderState)
    (hfaith : ∀ q v, cacheLookup q st.cache = some v → v = fs.content q)
    (h : scanFiles fs ps st = .ok (cs, st₁)) :
    ∃ st₂, scanFiles fs ps st₁ = .ok (cs, st₂) ∧ st₂.reads = st₁.reads := by
  obtain ⟨hf1, _, hcached⟩ := scanFiles_ok_state h hfaith
  obtain ⟨t₂, h2, _, hr⟩ := scanFiles_second_run ps st₁ h hfaith hf1 hcached
  exact ⟨t₂, h2, hr⟩

/-- Witness for C7: one marker-bearing `.ts` file scanned from the fresh
state; the re-scan leaves the read counter at 1. -/
theorem loader_cache_no_reread_witness :
    ((∀ q v, cacheLookup q initLoaderState.cache = some v
        → v = (⟨fun p => if p = "a.ts" then some "@AutoInjectable() class A" else none,
            fun p => if p = "a.ts" then some [⟨3, ⟨true, false, none, none⟩⟩] else none⟩ :
              FileSys).content q)
      ∧ scanFiles
          ⟨fun p => if p = "a.ts" then some "@AutoInjectable() class A" else none,
           fun p => if p = "a.ts" then some [⟨3, ⟨true, false, none, none⟩⟩] else none⟩
          ["a.ts"] initLoaderState
        = .ok ([⟨3, ⟨true, false, none, none⟩⟩],
            ⟨[("a.ts", some "@AutoInjectable() class A")], 1, ["a.ts"]⟩))
    ∧ ∃ st₂, scanFiles
          ⟨fun p => if p = "a.ts" then some "@AutoInjectable() class A" else none,
           fun p => if p = "a.ts" then some [⟨3, ⟨true, false, none, none⟩⟩] else none⟩
          ["a.ts"] ⟨[("a.ts", some "@AutoInjectable() class A")], 1, ["a.ts"]⟩
        = .ok ([⟨3, ⟨true, false, none, none⟩⟩], st₂)
      ∧ st₂.reads = (⟨[("a.ts", some "@AutoInjectable() class A")], 1,
          ["a.ts"]⟩ : LoaderState).reads :=
  ⟨⟨fun q v hv => by simp [initLoaderState, cacheLookup] at hv, rfl⟩,
    loader_cache_no_reread
      ⟨fun p => if p = "a.ts" then some "@AutoInjectable() class A" else none,
       fun p => if p = "a.ts" then some [⟨3, ⟨true, false, none, none⟩⟩] else none⟩
      ["a.ts"] initLoaderState [⟨3, ⟨true, false, none, none⟩⟩]
      ⟨[("a.ts", some "@AutoInjectable() class A")], 1, ["a.ts"]⟩
      (fun q v hv => by simp [initLoaderState, cacheLookup] at hv) rfl⟩

/-- Sorting a duplicated pair is the identity. -/
lemma mergeSort_pair_same (v : Cls × Int) :
    [v, v].mergeSort priorityDesc = [v, v] :=
  List.mergeSort_of_sorted (by simp [priorityDesc])

/-- A group holding the same class twice (equal priorities) throws the
conflict. -/
lemma resolveGroup_pair_same (k : Option Token) (v : Cls × Int) :
    resolveGroup k [v, v] = .error k := by
  simp [resolveGroup, mergeSort_pair_same v]

/-- **C10**: the loader does not deduplicate across patterns — two patterns
reaching the same file append that file's exported classes once per
pattern, and an identity-bound candidate exported there then meets its own
duplicate (same class, equal priority) in one group, so resolution throws
the Conflict although only one implementation exists. -/
theorem loader_no_dedup_cross_pattern_conflict (env : Env) (p₁ p₂ f : String)
    (c : Cls) (content : String) (t : Token) (st : LoaderState)
    (h₁ : env.expand p₁ = [f]) (h₂ : env.expand p₂ = [f])
    (hts : isTsOrJs f = true)
    (hcache : cacheLookup f st.cache = none)
    (hc : env.fs.content f = some content)
    (hne : strIsEmpty content = false)
    (hmark : includes content "@AutoInjectable(" = true)
    (hexp : env.fs.modExports f = some [c])
    (hinj : isAutoInjectable c = true)
    (htok : getAutoInjectableToken c = some t) :
    (∃ st', loadClassesFromPatterns env [p₁, p₂] st = .ok ([c, c], st'))
    ∧ resolveProviders [c, c] = .error (some t) := by
  have hg1 : getFileContent env.fs f st = (some content,
      ⟨st.cache ++ [(f, some content)], st.reads + 1, st.required⟩) := by
    unfold getFileContent
    rw [hcache, hc]
  have hstep1 : loadClassesFromFileIfAnnotated env.fs f st
      = .ok ([c], ⟨st.cache ++ [(f, some content)], st.reads + 1,
          st.required ++ [f]⟩) := by
    rw [loadIfAnnotated_eq_some hts hg1, if_neg (by simp [hne]),
      if_pos (by simp [hmark]), loadClassesFromFile_eq_some _ hexp]
  have hl2 : cacheLookup f (st.cache ++ [(f, some content)]) = some (some content) := by
    rw [cacheLookup_append_single, hcache]
    simp
  have hg2 : getFileContent env.fs f
      ⟨st.cache ++ [(f, some content)], st.reads + 1, st.required ++ [f]⟩
      = (some content, ⟨st.cache ++ [(f, some content)], st.reads + 1,
          st.required ++ [f]⟩) :=
    getFileContent_of_cached hl2
  have hstep2 : loadClassesFromFileIfAnnotated env.fs f
      ⟨st.cache ++ [(f, some content)], st.reads + 1, st.required ++ [f]⟩
      = .ok ([c], ⟨st.cache ++ [(f, some content)], st.reads + 1,
          st.required ++ [f] ++ [f]⟩) := by
    rw [loadIfAnnotated_eq_some hts hg2, if_neg (by simp [hne]),
      if_pos (by simp [hmark]), loadClassesFromFile_eq_some _ hexp]
  have hscan1 : scanFiles env.fs [f] st
      = .ok ([c], ⟨st.cache ++ [(f, some content)], st.reads + 1,
          st.required ++ [f]⟩) := by
    rw [scanFiles, hstep1]
    simp [scanFiles]
  have hscan2 : scanFiles env.fs [f]
      ⟨st.cache ++ [(f, some content)], st.reads + 1, st.required ++ [f]⟩
      = .ok ([c], ⟨st.cache ++ [(f, some content)], st.reads + 1,
          st.required ++ [f] ++ [f]⟩) := by
    rw [scanFiles, hstep2]
    simp [scanFiles]
  have hpat2 : loadClassesFromPatterns env [p₂]
      ⟨st.cache ++ [(f, some content)], st.reads + 1, st.required ++ [f]⟩
      = .ok ([c], ⟨st.cache ++ [(f, some content)], st.reads + 1,
          st.required ++ [f] ++ [f]⟩) := by
    rw [loadClassesFromPatterns, h₂, hscan2]
    simp [loadClassesFromPatterns]
  constructor
  · refine ⟨⟨st.cache ++ [(f, some content)], st.reads + 1,
      st.required ++ [f] ++ [f]⟩, ?_⟩
    rw [loadClassesFromPatterns, h₁, hscan1]
    simp [hpat2]
  · have hmap : buildImplMap [c, c]
        = [(some t, [(c, getAutoInjectablePriority c),
            (c, getAutoInjectablePriority c)])] := by
      simp [buildImplMap, addProviderClass, hinj, htok, pushImpl]
    unfold resolveProviders
    rw [hmap, resolveGroups, resolveGroup_pair_same]

/-- Witness for C10: two pattern groups both reaching `u.ts`, whose one
identity-bound class is collected twice and then conflicts with itself. -/
theorem loader_no_dedup_cross_pattern_conflict_witness :
    ((⟨⟨fun p => if p = "u.ts" then some "@AutoInjectable() class U" else none,
        fun p => if p = "u.ts"
          then some [⟨6, ⟨true, false, some (Token.iface "IU"), none⟩⟩] else none⟩,
       fun pat => if pat = "g1" then ["u.ts"]
         else if pat = "g2" then ["u.ts"] else []⟩ : Env).expand "g1" = ["u.ts"]
      ∧ (⟨⟨fun p => if p = "u.ts" then some "@AutoInjectable() class U" else none,
          fun p => if p = "u.ts"
            then some [⟨6, ⟨true, false, some (Token.iface "IU"), none⟩⟩] else none⟩,
         fun pat => if pat = "g1" then ["u.ts"]
           else if pat = "g2" then ["u.ts"] else []⟩ : Env).expand "g2" = ["u.ts"]
      ∧ includes "@AutoInjectable() class U" "@AutoInjectable(" = true
      ∧ getAutoInjectableToken ⟨6, ⟨true, false, some (Token.iface "IU"), none⟩⟩
          = some (Token.iface "IU"))
    ∧ ((∃ st', loadClassesFromPatterns
          ⟨⟨fun p => if p = "u.ts" then some "@AutoInjectable() class U" else none,
            fun p => if p = "u.ts"
              then some [⟨6, ⟨true, false, some (Token.iface "IU"), none⟩⟩] else none⟩,
           fun pat => if pat = "g1" then ["u.ts"]
             else if pat = "g2" then ["u.ts"] else []⟩
          ["g1", "g2"] initLoaderState
        = .ok ([⟨6, ⟨true, false, some (Token.iface "IU"), none⟩⟩,
            ⟨6, ⟨true, false, some (Token.iface "IU"), none⟩⟩], st'))
      ∧ resolveProviders
          [⟨6, ⟨true, false, some (Token.iface "IU"), none⟩⟩,
           ⟨6, ⟨true, false, some (Token.iface "IU"), none⟩⟩]
        = .error (some (Token.iface "IU"))) :=
  ⟨⟨rfl, rfl, by decide, rfl⟩,
    loader_no_dedup_cross_pattern_conflict
      ⟨⟨fun p => if p = "u.ts" then some "@AutoInjectable() class U" else none,
        fun p => if p = "u.ts"
          then some [⟨6, ⟨true, false, some (Token.iface "IU"), none⟩⟩] else none⟩,
       fun pat => if pat = "g1" then ["u.ts"]
         else if pat = "g2" then ["u.ts"] else []⟩
      "g1" "g2" "u.ts" ⟨6, ⟨true, false, some (Token.iface "IU"), none⟩⟩
      "@AutoInjectable() class U" (Token.iface "IU") initLoaderState
      rfl rfl (by decide) rfl rfl (by decide) (by decide) rfl rfl rfl⟩
